import Mathlib

/-!
Shallow embedding of the Simple-AI-Agent repository (src/tools.py, src/main.py).

Conventions of the embedding:
* Python strings are Lean `String`s; string-manipulating library calls
  (`strip`, `lower`, `split`, `in`, slicing, `int(...)`) are modelled by
  structurally recursive Lean functions over `String.data` so that the kernel
  can evaluate them on concrete inputs.  The models cover the ASCII range,
  which is the range the repository exercises.
* The module-level global `reviews_data` (a list of CSV rows) becomes an
  explicit `List Review` parameter of every tool.
* External services (the LLM runtime, `json.loads`, the SMTP transport) are
  out of scope per the specification and are passed in as oracle functions.
* Python float formatting (`"%.1f"`, `"%.2f"`) is modelled by decimal
  round-half-to-even on exact rationals (`fmtFixed`).
-/

namespace SimpleAgent

/-! ## Python string primitives -/

/-- `str.strip()` on a list of characters: drop whitespace from both ends. -/
def trimWs (l : List Char) : List Char :=
  ((l.dropWhile Char.isWhitespace).reverse.dropWhile Char.isWhitespace).reverse

/-- Model of Python `str.strip()` (no arguments: whitespace). -/
def pyStripStr (s : String) : String := String.mk (trimWs s.data)

/-- Model of Python `str.strip(chars)`: drop characters of `chars` from both ends. -/
def pyStripChars (chars : List Char) (l : List Char) : List Char :=
  ((l.dropWhile (fun c => chars.contains c)).reverse.dropWhile
    (fun c => chars.contains c)).reverse

/-- Model of Python `str.lower()` (ASCII range), kernel-reducible. -/
def toLowerStr (s : String) : String := String.mk (s.data.map Char.toLower)

/-- Numeric value of a digit string (most significant digit first). -/
def digitsVal (l : List Char) : Nat :=
  l.foldl (fun n c => n * 10 + (c.toNat - 48)) 0

/-- Model of Python `int(...)` applied to the characters of an
already-stripped string: optional sign followed by one or more digits. -/
def pyIntChars : List Char → Option Int
  | [] => none
  | c :: cs =>
    if c == '+' then
      if cs ≠ [] ∧ cs.all Char.isDigit then some (digitsVal cs) else none
    else if c == '-' then
      if cs ≠ [] ∧ cs.all Char.isDigit then some (-(digitsVal cs : Int)) else none
    else if (c :: cs).all Char.isDigit then some (digitsVal (c :: cs)) else none

/-- Model of Python `int(s)` on a string: `int` itself ignores surrounding
whitespace, so the argument is stripped first. -/
def pyInt (s : String) : Option Int := pyIntChars (trimWs s.data)

/-- Split a character list at every occurrence of `sep` (the separators are
dropped, empty fields are kept), as in Python `s.split(sep)`. -/
def splitOnChar (sep : Char) : List Char → List (List Char)
  | [] => [[]]
  | c :: cs =>
    if c == sep then [] :: splitOnChar sep cs
    else
      match splitOnChar sep cs with
      | [] => [[c]]
      | w :: ws => (c :: w) :: ws

/-- Helper for `pyWords`: accumulates the current word (reversed). -/
def pyWordsAux : List Char → List Char → List (List Char)
  | [], acc => if acc.isEmpty then [] else [acc.reverse]
  | c :: cs, acc =>
    if c.isWhitespace then
      if acc.isEmpty then pyWordsAux cs [] else acc.reverse :: pyWordsAux cs []
    else pyWordsAux cs (c :: acc)

/-- Model of Python `str.split()` with no arguments: split on runs of
whitespace, discarding empty fields. -/
def pyWords (l : List Char) : List (List Char) := pyWordsAux l []

/-- Python slice `l[:n]` for an `int` index `n`: nonnegative `n` takes the
first `n` elements, negative `n` drops the last `-n` elements. -/
def pyTakeSlice (n : Int) (l : List α) : List α :=
  if 0 ≤ n then l.take n.toNat else l.take (l.length - (-n).toNat)

/-- A single-quote character as a string (used in several literal outputs). -/
def squote : String := String.mk [Char.ofNat 39]

/-! ## The review store (tools.py, `reviews_data`)

One CSV row of `realistic_restaurant_reviews.csv` as read by `csv.DictReader`:
all fields are strings.  The `Review` CSV column (the free-text body) is the
`body` field here. -/

structure Review where
  title : String
  date : String
  rating : String
  body : String
deriving DecidableEq

/-- The `"{r['Title']} ({r['Date']}): {r['Review']}"` format used by
`search_reviews_tool` and `top_rated_comments_tool`. -/
def fmtReview (r : Review) : String :=
  r.title ++ " (" ++ r.date ++ "): " ++ r.body

/-! ## Decimal rendering of rationals (Python `"%.df"` model) -/

/-- Round a rational to the nearest integer, halves to even
(the rounding used by Python float formatting, modelled on the exact value).
Computed on the numerator/denominator pair so that the kernel can evaluate
it: `f` is the floor, `r` the remainder, and `2 * r` is compared with the
denominator to place the value relative to the half. -/
def roundHalfEven (q : ℚ) : Int :=
  let f : Int := Int.fdiv q.num q.den
  let r : Int := q.num - f * q.den
  if 2 * r < (q.den : Int) then f
  else if (q.den : Int) < 2 * r then f + 1
  else if f % 2 = 0 then f else f + 1

/-- `q * 10 ^ d` computed without rational multiplication. -/
def scalePow10 (d : Nat) (q : ℚ) : ℚ := mkRat (q.num * (10 ^ d : Nat)) q.den

/-- Render a nonnegative numerator of tenths/hundredths with `d` decimals. -/
def fmtFixedNat (d : Nat) (n : Nat) : String :=
  let p := 10 ^ d
  if d = 0 then toString n
  else
    let frac := toString (n % p)
    let pad := String.mk (List.replicate (d - frac.length) (Char.ofNat 48))
    toString (n / p) ++ "." ++ pad ++ frac

/-- Model of Python `"{x:.df}"` formatting on the exact rational value. -/
def fmtFixed (d : Nat) (q : ℚ) : String :=
  let scaled := roundHalfEven (scalePow10 d q)
  if scaled < 0 then "-" ++ fmtFixedNat d (-scaled).toNat else fmtFixedNat d scaled.toNat

/-! ## rating_summary_tool (tools.py lines 26-40) -/

/-- One iteration of the `for review in reviews_data` loop of
`rating_summary_tool`: the `try` adds `int(review["Rating"])` to the running
total and bumps the count; the bare `except` skips the row. -/
def ratingStep (tc : Int × Nat) (r : Review) : Int × Nat :=
  match pyInt r.rating with
  | some v => (tc.1 + v, tc.2 + 1)
  | none => tc

/-- `(total_rating, count)` after the loop of `rating_summary_tool`. -/
def rating_summary_core (rs : List Review) : Int × Nat :=
  rs.foldl ratingStep (0, 0)

/-- `avg_rating = total_rating / count if count else 0` (the exact value of
the float division, as a kernel-reducible rational). -/
def ratingAvg (rs : List Review) : ℚ :=
  let tc := rating_summary_core rs
  if tc.2 = 0 then 0 else mkRat tc.1 tc.2

/-- `rating_summary_tool` of tools.py. -/
def rating_summary_tool (rs : List Review) : String :=
  "There are " ++ toString (rating_summary_core rs).2 ++
    " reviews with an average rating of " ++ fmtFixed 1 (ratingAvg rs) ++ " stars."

/-! ## search_reviews_tool (tools.py lines 42-51) -/

/-- The match test `query.lower() in review["Review"].lower()`. -/
def matchesQ (query : String) (r : Review) : Bool :=
  decide (List.IsInfix (toLowerStr query).data (toLowerStr r.body).data)

/-- One iteration of the result-collecting loop of `search_reviews_tool`. -/
def searchStep (query : String) (acc : List String) (r : Review) : List String :=
  if matchesQ query r then acc ++ [fmtReview r] else acc

/-- The `results` list built by `search_reviews_tool`. -/
def searchResults (rs : List Review) (query : String) : List String :=
  rs.foldl (searchStep query) []

/-- `search_reviews_tool` of tools.py: sentinel on no results, otherwise the
first three matches joined by blank lines. -/
def search_reviews_tool (rs : List Review) (query : String) : String :=
  let results := searchResults rs query
  if results = [] then "No reviews found matching your query."
  else String.intercalate "\n\n" (results.take 3)

/-! ## count_rating_tool (tools.py lines 53-60) -/

/-- The literal error output of `count_rating_tool` for non-numeric input. -/
def invalidRatingMsg : String :=
  "Invalid input. Please provide a number like " ++ squote ++ "5" ++ squote ++ "."

/-- `count_rating_tool` of tools.py: parses `int(rating_str.strip())`, then
counts rows with `str(review.get("Rating", "")).strip() == str(rating)`. -/
def count_rating_tool (rs : List Review) (rating_str : String) : String :=
  match pyInt rating_str with
  | none => invalidRatingMsg
  | some rating =>
    let count := rs.countP (fun r => pyStripStr r.rating == toString rating)
    toString count ++ " customers gave a " ++ toString rating ++ "-star rating."

/-! ## top_rated_comments_tool (tools.py lines 62-73) -/

/-- The literal error output of `top_rated_comments_tool` for non-numeric input. -/
def invalidTopNMsg : String :=
  "Please provide a number like " ++ squote ++ "3" ++ squote ++
    " to get top rated comments."

/-- The filter `str(review.get("Rating", "")).strip() == "5"`. -/
def fiveStarReviews (rs : List Review) : List Review :=
  rs.filter (fun r => pyStripStr r.rating == "5")

/-- `top_rated_comments_tool` of tools.py, including the Python slice
`top_reviews[:n]` semantics for any integer `n`. -/
def top_rated_comments_tool (rs : List Review) (n : String) : String :=
  match pyInt n with
  | none => invalidTopNMsg
  | some n =>
    let sliced := pyTakeSlice n (fiveStarReviews rs)
    if sliced = [] then "No top rated reviews found."
    else String.intercalate "\n\n" (sliced.map fmtReview)

/-! ## Stable sorting (model of Python `sorted`)

Python `sorted` is a stable sort; with `reverse=True` it is a stable
descending sort (equal keys keep their original relative order).  The model
is a stable insertion sort parameterised by a strict precedence test:
`before y x = true` means an already-placed `y` must stay strictly in front
of the newly inserted `x`. -/

/-- Insert `x` behind every element that strictly precedes it. -/
def insertStable (before : α → α → Bool) (x : α) : List α → List α
  | [] => [x]
  | y :: ys => if before y x then y :: insertStable before x ys else x :: y :: ys

/-- Stable insertion sort with strict precedence test `before`. -/
def sortStable (before : α → α → Bool) : List α → List α
  | [] => []
  | x :: xs => insertStable before x (sortStable before xs)

/-- Precedence for `sorted(keywords.items(), key=lambda x: x[1], reverse=True)`:
a pair strictly precedes another iff its count is strictly larger. -/
def beforeByCountDesc (y x : α × Nat) : Bool := decide (x.2 < y.2)

/-- Strict lexicographic order on character lists by code point (the order
Python uses to compare strings). -/
def lexLt : List Char → List Char → Bool
  | [], [] => false
  | [], _ :: _ => true
  | _ :: _, [] => false
  | a :: as, b :: bs =>
    if a.toNat < b.toNat then true
    else if b.toNat < a.toNat then false
    else lexLt as bs

/-- Strict lexicographic order on strings by code point. -/
def strLt (a b : String) : Bool := lexLt a.data b.data

/-- Precedence for `sorted(ratings_by_month.keys())`: plain ascending
lexicographic string order. -/
def beforeStrAsc (y x : String) : Bool := strLt y x

/-! ## low_rated_reasons_tool (tools.py lines 75-85) -/

/-- The punctuation set of `word.strip(".,!?()")`. -/
def punctChars : List Char := ['.', ',', '!', '?', '(', ')']

/-- The test `review.get("Rating", "").strip() in ["1", "2"]`. -/
def lowRated (r : Review) : Bool :=
  pyStripStr r.rating == "1" || pyStripStr r.rating == "2"

/-- Tokens contributed by one review body:
`review["Review"].lower().split()`, each word stripped of the punctuation
set and kept only if `word.isalpha()` (nonempty, all alphabetic). -/
def tokensOfBody (body : String) : List String :=
  (pyWords (toLowerStr body).data).filterMap (fun w =>
    let w2 := pyStripChars punctChars w
    if w2 ≠ [] ∧ w2.all Char.isAlpha then some (String.mk w2) else none)

/-- All tokens of the 1- and 2-star review bodies, in encounter order. -/
def lowTokens : List Review → List String
  | [] => []
  | r :: rs => (if lowRated r then tokensOfBody r.body else []) ++ lowTokens rs

/-- `keywords[word] = keywords.get(word, 0) + 1` on an insertion-ordered
association list (the model of a Python dict): bump the first entry with
this key, or append a fresh entry at the end. -/
def bump (acc : List (String × Nat)) (w : String) : List (String × Nat) :=
  match acc with
  | [] => [(w, 1)]
  | (k, c) :: rest => if k = w then (k, c + 1) :: rest else (k, c) :: bump rest w

/-- The `keywords` dict after the counting loop, as an insertion-ordered
association list. -/
def countsOf (ws : List String) : List (String × Nat) := ws.foldl bump []

/-- Count stored for `w` (0 when absent): reads the first matching entry. -/
def cnt (acc : List (String × Nat)) (w : String) : Nat :=
  match acc with
  | [] => 0
  | (k, c) :: rest => if k = w then c else cnt rest w

/-- The elements of a list not yet in `seen`, first occurrences only, in
encounter order. -/
def freshKeys (seen : List String) : List String → List String
  | [] => []
  | w :: ws => if w ∈ seen then freshKeys seen ws else w :: freshKeys (w :: seen) ws

/-- First-occurrence deduplication in encounter order: the key order of a
Python dict built by repeated `d[w] = d.get(w, 0) + 1`. -/
def dedupFirst (ws : List String) : List String := freshKeys [] ws

/-- `low_rated_reasons_tool` of tools.py. -/
def low_rated_reasons_tool (rs : List Review) : String :=
  let sorted_keywords := (sortStable beforeByCountDesc (countsOf (lowTokens rs))).take 5
  "Common keywords in low-rated reviews: " ++
    String.intercalate ", " (sorted_keywords.map Prod.fst)

/-! ## review_count_by_date_tool (tools.py lines 87-89) -/

/-- `review_count_by_date_tool` of tools.py: exact string match on the
`Date` column. -/
def review_count_by_date_tool (rs : List Review) (date : String) : String :=
  let count := rs.countP (fun r => r.date == date)
  toString count ++ " reviews were posted on " ++ date ++ "."

/-! ## most_mentioned_dish_tool (tools.py lines 91-101) -/

/-- Tokens of all review bodies with `word.isalpha() and len(word) > 3`. -/
def dishTokensOfBody (body : String) : List String :=
  (pyWords (toLowerStr body).data).filterMap (fun w =>
    let w2 := pyStripChars punctChars w
    if w2 ≠ [] ∧ w2.all Char.isAlpha ∧ 3 < w2.length then some (String.mk w2)
    else none)

/-- All length-greater-3 alphabetic tokens over every review, in order. -/
def dishTokens : List Review → List String
  | [] => []
  | r :: rs => dishTokensOfBody r.body ++ dishTokens rs

/-- Python `max(items, key=lambda x: x[1])` over an association list:
keeps the first entry with the maximal count. -/
def maxBySnd (l : List (String × Nat)) : Option (String × Nat) :=
  l.foldl (fun best p =>
    match best with
    | none => some p
    | some b => if b.2 < p.2 then some p else some b) none

/-- `most_mentioned_dish_tool` of tools.py. -/
def most_mentioned_dish_tool (rs : List Review) : String :=
  match maxBySnd (countsOf (dishTokens rs)) with
  | none => "No mentions found."
  | some top_word =>
    "The most mentioned term in reviews is " ++ squote ++ top_word.1 ++ squote ++
      " with " ++ toString top_word.2 ++ " mentions."

/-! ## sentiment_trend_tool (tools.py lines 103-118) -/

/-- Gregorian leap-year test (`datetime` calendar validation). -/
def isLeap (y : Nat) : Bool :=
  decide ((y % 4 = 0 ∧ y % 100 ≠ 0) ∨ y % 400 = 0)

/-- Days in a month, as validated by `datetime.strptime`. -/
def daysInMonth (y m : Nat) : Nat :=
  if m = 2 then (if isLeap y then 29 else 28)
  else if m = 4 ∨ m = 6 ∨ m = 9 ∨ m = 11 then 30
  else 31

/-- Model of `datetime.strptime(s, "%Y-%m-%d")`: three dash-separated digit
groups — the year exactly four digits (CPython's `%Y` matches `\d\d\d\d`),
month and day one or two digits — forming a valid calendar date; returns
`(year, month, day)`. -/
def pyDate (s : String) : Option (Nat × Nat × Nat) :=
  match splitOnChar '-' s.data with
  | [ys, ms, ds] =>
    if ys ≠ [] ∧ ys.length = 4 ∧ ys.all Char.isDigit ∧
        ms ≠ [] ∧ ms.length ≤ 2 ∧ ms.all Char.isDigit ∧
        ds ≠ [] ∧ ds.length ≤ 2 ∧ ds.all Char.isDigit then
      let y := digitsVal ys
      let m := digitsVal ms
      let d := digitsVal ds
      if 1 ≤ y ∧ 1 ≤ m ∧ m ≤ 12 ∧ 1 ≤ d ∧ d ≤ daysInMonth y m then
        some (y, m, d)
      else none
    else none
  | _ => none

/-- Model of `date_obj.strftime("%Y-%m")`: decimal year, two-digit month. -/
def monthKey (y m : Nat) : String :=
  toString y ++ "-" ++ (if m < 10 then "0" ++ toString m else toString m)

/-- The month key and parsed rating of one review, when both
`datetime.strptime(review["Date"], "%Y-%m-%d")` and `int(review["Rating"])`
succeed (the `try` of the loop body skips the row otherwise). -/
def reviewMonthRating (r : Review) : Option (String × Int) :=
  match pyDate r.date, pyInt r.rating with
  | some d, some v => some (monthKey d.1 d.2.1, v)
  | _, _ => none

/-- `ratings_by_month[month].append(rating)` on an insertion-ordered
association list (the model of a `defaultdict(list)`). -/
def addRating (acc : List (String × List Int)) (m : String) (v : Int) :
    List (String × List Int) :=
  match acc with
  | [] => [(m, [v])]
  | (k, vs) :: rest =>
    if k = m then (k, vs ++ [v]) :: rest else (k, vs) :: addRating rest m v

/-- One iteration of the loop of `sentiment_trend_tool`. -/
def monthStep (acc : List (String × List Int)) (r : Review) :
    List (String × List Int) :=
  match reviewMonthRating r with
  | some p => addRating acc p.1 p.2
  | none => acc

/-- The `ratings_by_month` dict after the loop of `sentiment_trend_tool`. -/
def monthGroups (rs : List Review) : List (String × List Int) :=
  rs.foldl monthStep []

/-- Dict lookup: ratings recorded under month `m` (first matching entry). -/
def mlookup (m : String) : List (String × List Int) → List Int
  | [] => []
  | (k, vs) :: rest => if k = m then vs else mlookup m rest

/-- `sum(l) / len(l)` as an exact rational (the guard only covers the
off-domain empty case, which the code never reaches: every stored month
has at least one rating). -/
def ratMean (vs : List Int) : ℚ :=
  if vs.length = 0 then 0 else mkRat vs.sum vs.length

/-- The `(month, average)` rows of `sentiment_trend_tool`, months sorted
ascending as by `sorted(ratings_by_month.keys())`. -/
def sentiment_trend (rs : List Review) : List (String × ℚ) :=
  let g := monthGroups rs
  (sortStable beforeStrAsc (g.map Prod.fst)).map (fun m => (m, ratMean (mlookup m g)))

/-- `sentiment_trend_tool` of tools.py. -/
def sentiment_trend_tool (rs : List Review) : String :=
  "Sentiment trend by month:\n" ++
    String.intercalate "\n"
      ((sentiment_trend rs).map (fun p => p.1 ++ ": " ++ fmtFixed 2 p.2))

/-- The valid `(month, rating)` pairs of a dataset, in file order (used to
specify `sentiment_trend`). -/
def validPairs (rs : List Review) : List (String × Int) :=
  rs.filterMap reviewMonthRating

/-- The ratings of all valid rows belonging to month `m`, in file order. -/
def monthSel (m : String) (rs : List Review) : List Int :=
  (validPairs rs).filterMap (fun p => if p.1 = m then some p.2 else none)

/-! ## final_answer_tool (tools.py lines 152-155) -/

/-- `final_answer_tool` of tools.py (`if not text` is the empty-string test). -/
def final_answer_tool (text : String) : String :=
  if text = "" then "No final answer provided." else pyStripStr text

/-! ## send_mail_tool (tools.py lines 121-150)

`json.loads` and the SMTP session are external library calls (out of scope
per the specification) and are passed in as oracles:
* `parse` models `json.loads` composed with dict access: it yields the
  key/value pairs of the decoded object, or an error message for any input
  on which `json.loads` raises (or whose decoded value is not a dict, in
  which case the subscript raises).
* `transport` models the `smtplib.SMTP_SSL` block: `Except.ok ()` when the
  login and transmission succeed, `Except.error msg` when any of it raises.
The tool's own logic (key access, defaults, message assembly, the enclosing
`try`/`except`) is modelled directly.  The second component of the result
collects the messages actually transmitted. -/

structure MailMsg where
  sender : String
  recipient : String
  subject : String
  body : String
deriving DecidableEq

/-- First value stored under `k` in a decoded JSON object. -/
def alookup (k : String) : List (String × String) → Option String
  | [] => none
  | (k2, v) :: rest => if k2 = k then some v else alookup k rest

/-- `send_mail_tool` of tools.py.  `data["to"]` raises `KeyError("to")` when
the key is missing — `str` of that exception is the quoted key — and every
exception of the `try` block is rewritten to `"[SendMail Error] " + str(e)`. -/
def send_mail_tool (parse : String → Except String (List (String × String)))
    (transport : MailMsg → Except String Unit) (user : String)
    (input_str : String) : String × List MailMsg :=
  match parse input_str with
  | Except.error e => ("[SendMail Error] " ++ e, [])
  | Except.ok data =>
    match alookup "to" data with
    | none => ("[SendMail Error] " ++ squote ++ "to" ++ squote, [])
    | some to_addr =>
      let subject := (alookup "subject" data).getD "No Subject"
      let body := (alookup "body" data).getD ""
      let msg : MailMsg := ⟨user, to_addr, subject, body⟩
      match transport msg with
      | Except.error e => ("[SendMail Error] " ++ e, [])
      | Except.ok _ => ("Email sent successfully to " ++ to_addr, [msg])

/-! ## Tool registries and the safe-call wrapper (main.py lines 23-44, 83-86)

A registered tool is a function from the input string to an outcome that is
either a returned string (`Except.ok`) or a raised exception carrying its
message (`Except.error`).  `safe_tool` is the wrapper of main.py; a pure
Lean tool (which, like the Python analytics functions on well-formed rows,
never raises) is lifted with `liftTool`. -/

structure ToolEntry where
  name : String
  underlying : String → Except String String
  registered : String → Except String String

/-- A total tool never raises. -/
def liftTool (f : String → String) : String → Except String String :=
  fun input => Except.ok (f input)

/-- `safe_tool` of main.py: run the tool; a raised exception is caught and
rewritten to the `"[Tool Error] "`-prefixed string, which is returned. -/
def safe_tool (tool_func : String → Except String String) :
    String → Except String String :=
  fun input_str =>
    match tool_func input_str with
    | Except.ok s => Except.ok s
    | Except.error e => Except.ok ("[Tool Error] " ++ e)

/-- The Review registry of main.py (`review_tools`): every entry wraps its
tool with `safe_tool`.  Descriptions are elided. -/
def review_tools (rs : List Review) : List ToolEntry :=
  [⟨"RatingSummary", liftTool (fun _ => rating_summary_tool rs),
      safe_tool (liftTool (fun _ => rating_summary_tool rs))⟩,
   ⟨"SearchReviews", liftTool (search_reviews_tool rs),
      safe_tool (liftTool (search_reviews_tool rs))⟩,
   ⟨"FinalAnswer", liftTool final_answer_tool, safe_tool (liftTool final_answer_tool)⟩,
   ⟨"CountRating", liftTool (count_rating_tool rs),
      safe_tool (liftTool (count_rating_tool rs))⟩,
   ⟨"TopRatedComments", liftTool (top_rated_comments_tool rs),
      safe_tool (liftTool (top_rated_comments_tool rs))⟩,
   ⟨"LowRatedReasons", liftTool (fun _ => low_rated_reasons_tool rs),
      safe_tool (liftTool (fun _ => low_rated_reasons_tool rs))⟩,
   ⟨"ReviewCountByDate", liftTool (review_count_by_date_tool rs),
      safe_tool (liftTool (review_count_by_date_tool rs))⟩,
   ⟨"MostMentionedDish", liftTool (fun _ => most_mentioned_dish_tool rs),
      safe_tool (liftTool (fun _ => most_mentioned_dish_tool rs))⟩,
   ⟨"SentimentTrend", liftTool (fun _ => sentiment_trend_tool rs),
      safe_tool (liftTool (fun _ => sentiment_trend_tool rs))⟩]

/-- The Mail registry of main.py (`mail_tools`): `SendMail` is wrapped with
`safe_tool`; `FinalAnswer` is the bare identity `lambda x: x` (a total
function, registered unwrapped). -/
def mail_tools (parse : String → Except String (List (String × String)))
    (transport : MailMsg → Except String Unit) (user : String) : List ToolEntry :=
  [⟨"SendMail", liftTool (fun s => (send_mail_tool parse transport user s).1),
      safe_tool (liftTool (fun s => (send_mail_tool parse transport user s).1))⟩,
   ⟨"FinalAnswer", liftTool (fun x => x), liftTool (fun x => x)⟩]

/-! ## Intent classifier and /smart router (main.py lines 141-147, 179-191)

The LLM completion is external; `classify_intent` models the post-processing
of its raw response string. -/

/-- Model of Python `str.capitalize()` (ASCII range): first character
uppercased, the rest lowercased. -/
def pyCapitalize (s : String) : String :=
  match s.data with
  | [] => ""
  | c :: cs => String.mk (Char.toUpper c :: cs.map Char.toLower)

/-- `classify_intent_llm` of main.py, applied to the raw LLM response:
`response.strip().capitalize()`, mapped to `"Unknown"` outside the two
recognised labels. -/
def classify_intent (response : String) : String :=
  let intent := pyCapitalize (pyStripStr response)
  if intent = "Review" ∨ intent = "Mail" then intent else "Unknown"

/-- The fixed apology string of the `/smart` endpoint. -/
def apologyText : String :=
  "Sorry, I couldn" ++ squote ++
    "t understand if this is about reviews or sending mail."

/-- `smart_router` of main.py: the two agent executors are oracles; the
result is the `(intent, result)` pair of the JSON response. -/
def smart_router (reviewAgent mailAgent : String → String)
    (response prompt : String) : String × String :=
  let intent := classify_intent response
  if intent = "Review" then (intent, reviewAgent prompt)
  else if intent = "Mail" then (intent, mailAgent prompt)
  else (intent, apologyText)

/-! ## Analytics tool calls as state transformers (for the frame property)

Each analytics tool of the Review registry reads the module-level
`reviews_data` and writes nothing (the Python bodies only bind locals and
build fresh dicts/lists).  The state-passing translation therefore returns
the store it was handed. -/

inductive ReviewToolCall where
  | ratingSummary (input : String)
  | searchReviews (query : String)
  | finalAnswer (text : String)
  | countRating (rating_str : String)
  | topRatedComments (n : String)
  | lowRatedReasons (input : String)
  | reviewCountByDate (date : String)
  | mostMentionedDish (input : String)
  | sentimentTrend (input : String)

/-- Run one registered Review-registry tool against the review store,
returning its text output and the store as the call leaves it. -/
def runReviewTool : ReviewToolCall → List Review → String × List Review
  | ReviewToolCall.ratingSummary _, rs => (rating_summary_tool rs, rs)
  | ReviewToolCall.searchReviews q, rs => (search_reviews_tool rs q, rs)
  | ReviewToolCall.finalAnswer t, rs => (final_answer_tool t, rs)
  | ReviewToolCall.countRating s, rs => (count_rating_tool rs s, rs)
  | ReviewToolCall.topRatedComments n, rs => (top_rated_comments_tool rs n, rs)
  | ReviewToolCall.lowRatedReasons _, rs => (low_rated_reasons_tool rs, rs)
  | ReviewToolCall.reviewCountByDate d, rs => (review_count_by_date_tool rs d, rs)
  | ReviewToolCall.mostMentionedDish _, rs => (most_mentioned_dish_tool rs, rs)
  | ReviewToolCall.sentimentTrend _, rs => (sentiment_trend_tool rs, rs)

/-! ## Lemmas: stable insertion sort -/

theorem insertStable_perm (before : α → α → Bool) (x : α) (l : List α) :
    List.Perm (insertStable before x l) (x :: l) := by
  induction l with
  | nil => rfl
  | cons y ys ih =>
    by_cases h : before y x = true
    · simp only [insertStable, h, if_true]
      exact (ih.cons y).trans (List.Perm.swap x y ys)
    · have h2 : before y x = false := by simpa using h
      simp [insertStable, h2]

theorem sortStable_perm (before : α → α → Bool) (l : List α) :
    List.Perm (sortStable before l) l := by
  induction l with
  | nil => rfl
  | cons x xs ih => exact (insertStable_perm before x (sortStable before xs)).trans (ih.cons x)

theorem insertStable_pairwise (before : α → α → Bool)
    (H1 : ∀ a b, before a b = true → before b a = false)
    (H2 : ∀ a b c, before b a = false → before c b = false → before c a = false)
    (x : α) (l : List α) (hl : l.Pairwise (fun a b => before b a = false)) :
    (insertStable before x l).Pairwise (fun a b => before b a = false) := by
  induction l with
  | nil => simp [insertStable]
  | cons y ys ih =>
    rcases List.pairwise_cons.mp hl with ⟨hy, hys⟩
    by_cases h : before y x = true
    · simp only [insertStable, h, if_true]
      refine List.pairwise_cons.mpr ⟨?_, ih hys⟩
      intro z hz
      rcases List.mem_cons.mp ((insertStable_perm before x ys).mem_iff.mp hz) with rfl | hz2
      · exact H1 y _ h
      · exact hy z hz2
    · have h2 : before y x = false := by simpa using h
      simp only [insertStable, h2, if_false, Bool.false_eq_true]
      refine List.pairwise_cons.mpr ⟨?_, hl⟩
      intro z hz
      rcases List.mem_cons.mp hz with rfl | hz2
      · exact h2
      · exact H2 x y z h2 (hy z hz2)

theorem sortStable_pairwise (before : α → α → Bool)
    (H1 : ∀ a b, before a b = true → before b a = false)
    (H2 : ∀ a b c, before b a = false → before c b = false → before c a = false)
    (l : List α) :
    (sortStable before l).Pairwise (fun a b => before b a = false) := by
  induction l with
  | nil => simp [sortStable]
  | cons x xs ih => exact insertStable_pairwise before H1 H2 x (sortStable before xs) ih

theorem insertStable_filter_pos (before : α → α → Bool) (p : α → Bool) (x : α)
    (l : List α) (hpx : p x = true) (hty : ∀ y, p y = true → before y x = false) :
    (insertStable before x l).filter p = x :: l.filter p := by
  induction l with
  | nil => simp [insertStable, hpx]
  | cons y ys ih =>
    by_cases h : before y x = true
    · have hpy : p y = false := by
        cases hpy : p y with
        | false => rfl
        | true => rw [hty y hpy] at h; exact absurd h (by simp)
      simp [insertStable, h, hpy, ih]
    · have h2 : before y x = false := by simpa using h
      simp [insertStable, h2, hpx]

theorem insertStable_filter_neg (before : α → α → Bool) (p : α → Bool) (x : α)
    (l : List α) (hpx : p x = false) :
    (insertStable before x l).filter p = l.filter p := by
  induction l with
  | nil => simp [insertStable, hpx]
  | cons y ys ih =>
    by_cases h : before y x = true
    · simp only [insertStable, h, if_true]
      cases hpy : p y <;> simp [hpy, ih]
    · have h2 : before y x = false := by simpa using h
      simp [insertStable, h2, hpx]

theorem sortStable_filter (before : α → α → Bool) (p : α → Bool)
    (hcomp : ∀ a b, p a = true → p b = true → before a b = false) (l : List α) :
    (sortStable before l).filter p = l.filter p := by
  induction l with
  | nil => rfl
  | cons x xs ih =>
    cases hpx : p x with
    | true =>
      rw [sortStable, insertStable_filter_pos before p x _ hpx
        (fun y hy => hcomp y x hy hpx), ih, List.filter_cons_of_pos hpx]
    | false =>
      rw [sortStable, insertStable_filter_neg before p x _ hpx, ih,
        List.filter_cons_of_neg (by simp [hpx])]

/-! ## Lemmas: the lexicographic order `lexLt` is a strict total order -/

theorem lexLt_asymm : ∀ {a b : List Char}, lexLt a b = true → lexLt b a = false := by
  intro a
  induction a with
  | nil => intro b h; cases b <;> simp [lexLt]
  | cons x xs ih =>
    intro b h
    cases b with
    | nil => simp [lexLt] at h
    | cons y ys =>
      simp only [lexLt] at h ⊢
      by_cases hxy : x.toNat < y.toNat
      · have : ¬ y.toNat < x.toNat := by omega
        simp [this, hxy]
      · simp only [hxy, if_false] at h
        by_cases hyx : y.toNat < x.toNat
        · simp [hyx] at h
        · simp only [hyx, if_false] at h
          simp [hxy, hyx, ih h]

theorem lexLt_trans : ∀ {a b c : List Char},
    lexLt a b = true → lexLt b c = true → lexLt a c = true := by
  intro a
  induction a with
  | nil =>
    intro b c hab hbc
    cases b with
    | nil => simp [lexLt] at hab
    | cons y ys => cases c with
      | nil => simp [lexLt] at hbc
      | cons z zs => simp [lexLt]
  | cons x xs ih =>
    intro b c hab hbc
    cases b with
    | nil => simp [lexLt] at hab
    | cons y ys =>
      cases c with
      | nil => simp [lexLt] at hbc
      | cons z zs =>
        simp only [lexLt] at hab hbc ⊢
        by_cases hxy : x.toNat < y.toNat
        · by_cases hyz : y.toNat < z.toNat
          · have hxz : x.toNat < z.toNat := by omega
            simp [hxz]
          · simp only [hyz, if_false] at hbc
            by_cases hzy : z.toNat < y.toNat
            · simp [hzy] at hbc
            · have hxz : x.toNat < z.toNat := by omega
              simp [hxz]
        · simp only [hxy, if_false] at hab
          by_cases hyx : y.toNat < x.toNat
          · simp [hyx] at hab
          · simp only [hyx, if_false] at hab
            by_cases hyz : y.toNat < z.toNat
            · have hxz : x.toNat < z.toNat := by omega
              simp [hxz]
            · simp only [hyz, if_false] at hbc
              by_cases hzy : z.toNat < y.toNat
              · simp [hzy] at hbc
              · simp only [hzy, if_false] at hbc
                have hxz : ¬ x.toNat < z.toNat := by omega
                have hzx : ¬ z.toNat < x.toNat := by omega
                simp [hxz, hzx, ih hab hbc]

theorem lexLt_connect : ∀ {a b : List Char},
    lexLt a b = false → a = b ∨ lexLt b a = true := by
  intro a
  induction a with
  | nil => intro b h; cases b with
    | nil => exact Or.inl rfl
    | cons y ys => simp [lexLt] at h
  | cons x xs ih =>
    intro b h
    cases b with
    | nil => exact Or.inr (by simp [lexLt])
    | cons y ys =>
      simp only [lexLt] at h ⊢
      by_cases hxy : x.toNat < y.toNat
      · simp [hxy] at h
      · simp only [hxy, if_false] at h
        by_cases hyx : y.toNat < x.toNat
        · exact Or.inr (by simp [hyx])
        · simp only [hyx, if_false] at h
          have hval : x.val.toNat = y.val.toNat := by
            have h3 : x.toNat = y.toNat := by omega
            exact h3
          have hx : x = y := Char.ext (UInt32.toNat.inj hval)
          rcases ih h with rfl | h2
          · exact Or.inl (by rw [hx])
          · exact Or.inr (by simp [hyx, hxy, h2])

/-- `H1` fact for the ascending month sort. -/
theorem beforeStrAsc_asymm (a b : String) :
    beforeStrAsc a b = true → beforeStrAsc b a = false := by
  intro h; exact lexLt_asymm h

theorem lexLt_negtrans {a b c : List Char} (hba : lexLt b a = false)
    (hcb : lexLt c b = false) : lexLt c a = false := by
  cases hca : lexLt c a with
  | false => rfl
  | true =>
    exfalso
    rcases lexLt_connect hba with rfl | hab
    · rw [hca] at hcb
      exact absurd hcb (by simp)
    · rw [lexLt_trans hca hab] at hcb
      exact absurd hcb (by simp)

/-- `H2` fact for the ascending month sort. -/
theorem beforeStrAsc_negtrans (a b c : String) :
    beforeStrAsc b a = false → beforeStrAsc c b = false → beforeStrAsc c a = false :=
  fun hba hcb => lexLt_negtrans hba hcb

/-- `H1` fact for the descending count sort. -/
theorem beforeByCountDesc_asymm (a b : α × Nat) :
    beforeByCountDesc a b = true → beforeByCountDesc b a = false := by
  simp only [beforeByCountDesc, decide_eq_true_eq, decide_eq_false_iff_not]
  omega

/-- `H2` fact for the descending count sort. -/
theorem beforeByCountDesc_negtrans (a b c : α × Nat) :
    beforeByCountDesc b a = false → beforeByCountDesc c b = false →
    beforeByCountDesc c a = false := by
  simp only [beforeByCountDesc, decide_eq_false_iff_not]
  omega

/-! ## Lemmas: lowercasing is idempotent -/

theorem char_toLower_of_not_upper {d : Char} (h : ¬(d.toNat ≥ 65 ∧ d.toNat ≤ 90)) :
    d.toLower = d := by
  show (if d.toNat ≥ 65 ∧ d.toNat ≤ 90 then Char.ofNat (d.toNat + 32) else d) = d
  rw [if_neg h]

theorem char_toLower_of_upper {d : Char} (h : d.toNat ≥ 65 ∧ d.toNat ≤ 90) :
    d.toLower = Char.ofNat (d.toNat + 32) := by
  show (if d.toNat ≥ 65 ∧ d.toNat ≤ 90 then Char.ofNat (d.toNat + 32) else d) =
    Char.ofNat (d.toNat + 32)
  rw [if_pos h]

theorem char_toNat_ofNat_lower {k : Nat} (h1 : 97 ≤ k) (h2 : k ≤ 122) :
    (Char.ofNat k).toNat = k := by
  interval_cases k <;> decide

theorem char_toLower_toLower (c : Char) : c.toLower.toLower = c.toLower := by
  by_cases h : c.toNat ≥ 65 ∧ c.toNat ≤ 90
  · rw [char_toLower_of_upper h]
    apply char_toLower_of_not_upper
    rw [char_toNat_ofNat_lower (by omega) (by omega)]
    omega
  · rw [char_toLower_of_not_upper h, char_toLower_of_not_upper h]

theorem toLowerStr_toLowerStr (s : String) : toLowerStr (toLowerStr s) = toLowerStr s := by
  unfold toLowerStr
  simp [List.map_map, Function.comp_def, char_toLower_toLower]

/-! ## Lemmas: rating_summary_tool computes count and mean -/

theorem foldl_ratingStep (rs : List Review) : ∀ tc : Int × Nat,
    rs.foldl ratingStep tc =
      (tc.1 + (rs.filterMap (fun r => pyInt r.rating)).sum,
       tc.2 + (rs.filterMap (fun r => pyInt r.rating)).length) := by
  induction rs with
  | nil => intro tc; simp
  | cons r rs ih =>
    intro tc
    rw [List.foldl_cons, ih]
    cases hp : pyInt r.rating with
    | none => simp [ratingStep, hp]
    | some v =>
      simp only [ratingStep, hp, List.filterMap_cons, List.sum_cons,
        List.length_cons, Prod.mk.injEq]
      constructor <;> omega

/-! ## Lemmas: searchResults is filter-then-format -/

theorem foldl_searchStep (q : String) (rs : List Review) : ∀ acc : List String,
    rs.foldl (searchStep q) acc = acc ++ (rs.filter (matchesQ q)).map fmtReview := by
  induction rs with
  | nil => intro acc; simp
  | cons r rs ih =>
    intro acc
    rw [List.foldl_cons]
    cases hm : matchesQ q r with
    | true =>
      rw [ih, List.filter_cons_of_pos hm]
      simp [searchStep, hm]
    | false =>
      rw [ih, List.filter_cons_of_neg (by simp [hm])]
      simp [searchStep, hm]

theorem searchResults_eq (rs : List Review) (q : String) :
    searchResults rs q = (rs.filter (matchesQ q)).map fmtReview := by
  rw [searchResults, foldl_searchStep]
  simp

theorem matchesQ_toLower (q : String) (r : Review) :
    matchesQ (toLowerStr q) r = matchesQ q r := by
  unfold matchesQ
  rw [toLowerStr_toLowerStr]

theorem searchResults_toLower (rs : List Review) (q : String) :
    searchResults rs (toLowerStr q) = searchResults rs q := by
  rw [searchResults_eq, searchResults_eq]
  congr 1
  apply List.filter_congr
  intro r _
  rw [matchesQ_toLower]

/-! ## Claim C3 -/

/-- Claim C3: for every review dataset, the average-rating tool reports the
count of rows whose `Rating` parses as an integer and the arithmetic mean of
those ratings (rendered to one decimal by `fmtFixed 1` in the output string),
ignoring rows with non-numeric ratings; when no row has a parseable rating
the average defaults to 0. -/
theorem rating_summary_spec (rs : List Review) :
    (rating_summary_core rs).2 = (rs.filterMap (fun r => pyInt r.rating)).length ∧
    (rating_summary_core rs).1 = (rs.filterMap (fun r => pyInt r.rating)).sum ∧
    ((rs.filterMap (fun r => pyInt r.rating)).length = 0 → ratingAvg rs = 0) ∧
    ((rs.filterMap (fun r => pyInt r.rating)).length ≠ 0 →
      ratingAvg rs = ((rs.filterMap (fun r => pyInt r.rating)).sum : ℚ) /
        ((rs.filterMap (fun r => pyInt r.rating)).length : ℚ)) ∧
    rating_summary_tool rs = "There are " ++ toString (rating_summary_core rs).2 ++
      " reviews with an average rating of " ++ fmtFixed 1 (ratingAvg rs) ++ " stars." := by
  have hc : rating_summary_core rs =
      ((rs.filterMap (fun r => pyInt r.rating)).sum,
       (rs.filterMap (fun r => pyInt r.rating)).length) := by
    rw [rating_summary_core, foldl_ratingStep]
    simp
  refine ⟨by rw [hc], by rw [hc], ?_, ?_, rfl⟩
  · intro h
    rw [ratingAvg, hc]
    simp [h]
  · intro h
    rw [ratingAvg, hc]
    simp only [h, if_false]
    rw [Rat.mkRat_eq_div]

/-- Witness for C3 at a dataset with ratings `["4", "x", "5"]`. -/
theorem rating_summary_spec_witness :
    ratingAvg [Review.mk "A" "2024-01-01" "4" "ok", Review.mk "B" "2024-01-02" "x" "bad",
        Review.mk "C" "2024-01-03" "5" "good"] =
      (([Review.mk "A" "2024-01-01" "4" "ok", Review.mk "B" "2024-01-02" "x" "bad",
        Review.mk "C" "2024-01-03" "5" "good"].filterMap (fun r => pyInt r.rating)).sum : ℚ) /
      (([Review.mk "A" "2024-01-01" "4" "ok", Review.mk "B" "2024-01-02" "x" "bad",
        Review.mk "C" "2024-01-03" "5" "good"].filterMap (fun r => pyInt r.rating)).length : ℚ) :=
  (rating_summary_spec _).2.2.2.1 (by decide)

/-! ## Claim C4 -/

/-- Claim C4: keyword search is case-insensitive (any query and its lowercase
form yield identical output), matches by case-insensitive substring against
the review body, returns at most the first 3 matches in file order formatted
as `"{title} ({date}): {body}"`, and returns the literal no-results sentinel
exactly when no review matches. -/
theorem search_reviews_spec (rs : List Review) (q : String) :
    search_reviews_tool rs q = search_reviews_tool rs (toLowerStr q) ∧
    searchResults rs q = (rs.filter (matchesQ q)).map fmtReview ∧
    (searchResults rs q = [] →
      search_reviews_tool rs q = "No reviews found matching your query.") ∧
    (searchResults rs q ≠ [] →
      search_reviews_tool rs q = String.intercalate "\n\n" ((searchResults rs q).take 3) ∧
      ((searchResults rs q).take 3).length ≤ 3) := by
  refine ⟨?_, searchResults_eq rs q, ?_, ?_⟩
  · rw [search_reviews_tool, search_reviews_tool, searchResults_toLower]
  · intro h
    rw [search_reviews_tool, if_pos h]
  · intro h
    refine ⟨by rw [search_reviews_tool, if_neg h], ?_⟩
    rw [List.length_take]
    omega

/-- Witness for C4: searching `"PASTA"` equals searching `"pasta"` on a
one-review dataset, and the nonempty branch formats the match. -/
theorem search_reviews_spec_witness :
    search_reviews_tool [Review.mk "A" "2024-01-01" "5" "Great pasta and wine"] "PASTA" =
      search_reviews_tool [Review.mk "A" "2024-01-01" "5" "Great pasta and wine"]
        (toLowerStr "PASTA") ∧
    search_reviews_tool [Review.mk "A" "2024-01-01" "5" "Great pasta and wine"] "PASTA" =
      String.intercalate "\n\n"
        ((searchResults [Review.mk "A" "2024-01-01" "5" "Great pasta and wine"] "PASTA").take 3) :=
  ⟨(search_reviews_spec _ "PASTA").1,
   ((search_reviews_spec _ "PASTA").2.2.2 (by decide)).1⟩

/-! ## Claim C7 -/

/-- Claim C7: for every input string that does not parse as an integer, the
exact-rating-count tool and the top-N five-star tool return their
descriptive error strings (and, being total functions, never raise). -/
theorem numeric_tools_error_spec (rs : List Review) (s : String)
    (h : pyInt s = none) :
    count_rating_tool rs s = invalidRatingMsg ∧
    top_rated_comments_tool rs s = invalidTopNMsg := by
  constructor
  · rw [count_rating_tool, h]
  · rw [top_rated_comments_tool, h]

/-- Witness for C7 at the non-numeric input `"abc"`. -/
theorem numeric_tools_error_spec_witness :
    count_rating_tool [] "abc" = invalidRatingMsg ∧
    top_rated_comments_tool [] "abc" = invalidTopNMsg :=
  numeric_tools_error_spec [] "abc" (by decide)

/-! ## Claim C8 (corrected) -/

/-- Counterexample to claim C8 as stated: on a dataset with one five-star
review and the integer input `"0"`, the tool returns the sentinel string even
though five-star reviews exist — so the sentinel is not returned "exactly
when no five-star reviews exist" for every integer input. -/
theorem top_rated_comments_cex :
    pyInt "0" = some 0 ∧
    fiveStarReviews [Review.mk "A" "2024-01-01" "5" "good"] ≠ [] ∧
    top_rated_comments_tool [Review.mk "A" "2024-01-01" "5" "good"] "0" =
      "No top rated reviews found." :=
  ⟨by decide, by decide, by decide⟩

/-- Claim C8 (amended): for every input string parsing as an integer `N ≥ 1`,
the tool returns the first `N` five-star reviews in file order, and returns
the sentinel string exactly when no five-star reviews exist.  (For `N ≤ 0`
the Python slice `top_reviews[:n]` empties or truncates the list, so the
sentinel can appear although five-star reviews exist.) -/
theorem top_rated_comments_spec (rs : List Review) (s : String) (n : Int)
    (hs : pyInt s = some n) (hn : 1 ≤ n) :
    (fiveStarReviews rs = [] →
      top_rated_comments_tool rs s = "No top rated reviews found.") ∧
    (fiveStarReviews rs ≠ [] →
      top_rated_comments_tool rs s =
        String.intercalate "\n\n" (((fiveStarReviews rs).take n.toNat).map fmtReview)) := by
  have hslice : pyTakeSlice n (fiveStarReviews rs) = (fiveStarReviews rs).take n.toNat := by
    rw [pyTakeSlice, if_pos (by omega)]
  constructor
  · intro h
    rw [top_rated_comments_tool, hs, h]
    simp [pyTakeSlice]
  · intro h
    have hne : (fiveStarReviews rs).take n.toNat ≠ [] := by
      rw [Ne, List.take_eq_nil_iff]
      push_neg
      exact ⟨by omega, h⟩
    rw [top_rated_comments_tool, hs]
    simp only [hslice, if_neg hne]

/-- Witness for the amended C8 at `N = 1` on a one-review dataset. -/
theorem top_rated_comments_spec_witness :
    top_rated_comments_tool [Review.mk "A" "2024-01-01" "5" "good"] "1" =
      String.intercalate "\n\n"
        (((fiveStarReviews [Review.mk "A" "2024-01-01" "5" "good"]).take
          (Int.toNat 1)).map fmtReview) :=
  (top_rated_comments_spec [Review.mk "A" "2024-01-01" "5" "good"] "1" 1
    (by decide) (by decide)).2 (by decide)

/-! ## Lemmas: the keyword-count dict -/

theorem bump_cnt (acc : List (String × Nat)) (v w : String) :
    cnt (bump acc v) w = cnt acc w + (if v = w then 1 else 0) := by
  induction acc with
  | nil =>
    by_cases h : v = w
    · simp [bump, cnt, h]
    · simp [bump, cnt, h]
  | cons p rest ih =>
    obtain ⟨k, c⟩ := p
    by_cases hkv : k = v
    · subst hkv
      by_cases hkw : k = w
      · subst hkw
        simp [bump, cnt]
      · simp [bump, cnt, hkw]
    · by_cases hkw : k = w
      · subst hkw
        have hvk : ¬ v = k := fun hh => hkv hh.symm
        simp [bump, cnt, hkv, hvk]
      · simp [bump, cnt, hkv, hkw, ih]

theorem foldl_bump_cnt (ws : List String) : ∀ acc w,
    cnt (List.foldl bump acc ws) w = cnt acc w + ws.count w := by
  induction ws with
  | nil => intro acc w; simp
  | cons v vs ih =>
    intro acc w
    rw [List.foldl_cons, ih, bump_cnt, List.count_cons]
    by_cases h : v = w
    · simp [h]
      omega
    · have : ¬ (v == w) = true := by simpa using h
      simp [h, this]

theorem countsOf_cnt (ws : List String) (w : String) :
    cnt (countsOf ws) w = ws.count w := by
  rw [countsOf, foldl_bump_cnt]
  simp [cnt]

theorem bump_keys (acc : List (String × Nat)) (v : String) :
    (bump acc v).map Prod.fst =
      if v ∈ acc.map Prod.fst then acc.map Prod.fst else acc.map Prod.fst ++ [v] := by
  induction acc with
  | nil => simp [bump]
  | cons p rest ih =>
    obtain ⟨k, c⟩ := p
    by_cases hkv : k = v
    · subst hkv
      simp [bump]
    · have hvk : ¬ v = k := fun hh => hkv hh.symm
      by_cases hmem : v ∈ rest.map Prod.fst
      · simp [bump, hkv, ih, hmem, hvk]
      · simp [bump, hkv, ih, hmem, hvk]

theorem freshKeys_congr (l : List String) : ∀ s t : List String,
    (∀ x, x ∈ s ↔ x ∈ t) → freshKeys s l = freshKeys t l := by
  induction l with
  | nil => intro s t _; rfl
  | cons w ws ih =>
    intro s t hst
    by_cases h : w ∈ s
    · rw [freshKeys, if_pos h, freshKeys, if_pos ((hst w).mp h), ih s t hst]
    · rw [freshKeys, if_neg h, freshKeys, if_neg (fun hh => h ((hst w).mpr hh))]
      rw [ih (w :: s) (w :: t) (fun x => by simp [hst x])]

theorem foldl_bump_keys (ws : List String) : ∀ acc : List (String × Nat),
    (List.foldl bump acc ws).map Prod.fst =
      acc.map Prod.fst ++ freshKeys (acc.map Prod.fst) ws := by
  induction ws with
  | nil => intro acc; simp [freshKeys]
  | cons w vs ih =>
    intro acc
    rw [List.foldl_cons, ih]
    by_cases h : w ∈ acc.map Prod.fst
    · rw [bump_keys, if_pos h, freshKeys, if_pos h]
    · rw [bump_keys, if_neg h, freshKeys, if_neg h]
      rw [freshKeys_congr vs (acc.map Prod.fst ++ [w]) (w :: acc.map Prod.fst)
        (fun x => by simp [or_comm])]
      simp

theorem countsOf_keys (ws : List String) :
    (countsOf ws).map Prod.fst = dedupFirst ws := by
  rw [countsOf, foldl_bump_keys]
  simp [dedupFirst]

theorem freshKeys_subset_seen (l : List String) : ∀ seen x,
    x ∈ freshKeys seen l → x ∉ seen := by
  induction l with
  | nil => intro seen x h; simp [freshKeys] at h
  | cons w ws ih =>
    intro seen x h
    by_cases hw : w ∈ seen
    · rw [freshKeys, if_pos hw] at h
      exact ih seen x h
    · rw [freshKeys, if_neg hw] at h
      rcases List.mem_cons.mp h with rfl | h2
      · exact hw
      · intro hx
        exact ih (w :: seen) x h2 (List.mem_cons_of_mem w hx)

theorem freshKeys_nodup (l : List String) : ∀ seen, (freshKeys seen l).Nodup := by
  induction l with
  | nil => intro seen; simp [freshKeys]
  | cons w ws ih =>
    intro seen
    by_cases hw : w ∈ seen
    · rw [freshKeys, if_pos hw]
      exact ih seen
    · rw [freshKeys, if_neg hw]
      refine List.nodup_cons.mpr ⟨?_, ih (w :: seen)⟩
      intro hmem
      exact freshKeys_subset_seen ws (w :: seen) w hmem (List.mem_cons_self w seen)

theorem cnt_of_mem (acc : List (String × Nat)) (p : String × Nat)
    (hnd : (acc.map Prod.fst).Nodup) (hp : p ∈ acc) : cnt acc p.1 = p.2 := by
  induction acc with
  | nil => simp at hp
  | cons q rest ih =>
    obtain ⟨k, c⟩ := q
    rcases List.mem_cons.mp hp with rfl | h2
    · simp [cnt]
    · have hk : ¬ k = p.1 := by
        intro hh
        have : k ∈ rest.map Prod.fst := hh ▸ List.mem_map_of_mem Prod.fst h2
        exact (List.nodup_cons.mp (by simpa using hnd)).1 this
      rw [cnt, if_neg hk]
      exact ih (List.nodup_cons.mp (by simpa using hnd)).2 h2

theorem countsOf_mem_count (ws : List String) (p : String × Nat)
    (hp : p ∈ countsOf ws) : p.2 = ws.count p.1 := by
  have hnd : ((countsOf ws).map Prod.fst).Nodup := by
    rw [countsOf_keys]
    exact freshKeys_nodup ws []
  rw [← countsOf_cnt ws p.1, cnt_of_mem (countsOf ws) p hnd hp]

theorem lowTokens_eq_nil (rs : List Review) (h : ∀ r ∈ rs, lowRated r = false) :
    lowTokens rs = [] := by
  induction rs with
  | nil => rfl
  | cons r rest ih =>
    rw [lowTokens, h r (List.mem_cons_self r rest), if_neg (by simp)]
    exact ih (fun r2 h2 => h r2 (List.mem_cons_of_mem r h2))

/-! ## Claim C5 -/

/-- Claim C5: low-rated keyword extraction tokenizes the bodies of 1- and
2-star reviews by whitespace, strips the fixed punctuation set, keeps only
alphabetic tokens (all of which is the definition of `lowTokens`), counts
each token (entries of the dict hold the exact occurrence counts, keyed in
first-encounter order), ranks tokens by frequency descending with ties kept
stably in first-encounter order, and returns the top 5 as a comma-joined
string; with zero 1- and 2-star reviews the keyword list is empty, not an
error. -/
theorem low_rated_reasons_spec (rs : List Review) :
    (∀ p ∈ countsOf (lowTokens rs), p.2 = (lowTokens rs).count p.1) ∧
    (countsOf (lowTokens rs)).map Prod.fst = dedupFirst (lowTokens rs) ∧
    (sortStable beforeByCountDesc (countsOf (lowTokens rs))).Pairwise
      (fun a b => b.2 ≤ a.2) ∧
    (∀ k : Nat, (sortStable beforeByCountDesc (countsOf (lowTokens rs))).filter
        (fun p => p.2 == k) = (countsOf (lowTokens rs)).filter (fun p => p.2 == k)) ∧
    low_rated_reasons_tool rs = "Common keywords in low-rated reviews: " ++
      String.intercalate ", "
        (((sortStable beforeByCountDesc (countsOf (lowTokens rs))).take 5).map Prod.fst) ∧
    ((∀ r ∈ rs, lowRated r = false) →
      low_rated_reasons_tool rs = "Common keywords in low-rated reviews: ") := by
  refine ⟨fun p hp => countsOf_mem_count _ p hp, countsOf_keys _, ?_, ?_, rfl, ?_⟩
  · have h := sortStable_pairwise beforeByCountDesc beforeByCountDesc_asymm
      beforeByCountDesc_negtrans (countsOf (lowTokens rs))
    refine h.imp ?_
    intro a b hab
    simp only [beforeByCountDesc, decide_eq_false_iff_not] at hab
    omega
  · intro k
    apply sortStable_filter
    intro a b ha hb
    simp only [beq_iff_eq] at ha hb
    simp only [beforeByCountDesc, decide_eq_false_iff_not]
    omega
  · intro h
    rw [low_rated_reasons_tool, lowTokens_eq_nil rs h]
    simp [countsOf, sortStable, String.intercalate]

/-- Witness for C5: the token `"bad"` of a 1-star body `"bad, bad food!"` is
counted twice, and a dataset without 1- or 2-star reviews yields the empty
keyword list. -/
theorem low_rated_reasons_spec_witness :
    (2 : Nat) = (lowTokens [Review.mk "B" "2024-01-20" "1" "bad, bad food!"]).count "bad" ∧
    low_rated_reasons_tool [Review.mk "A" "2024-01-01" "5" "great"] =
      "Common keywords in low-rated reviews: " :=
  ⟨(low_rated_reasons_spec [Review.mk "B" "2024-01-20" "1" "bad, bad food!"]).1
      ("bad", 2) (by decide),
   (low_rated_reasons_spec [Review.mk "A" "2024-01-01" "5" "great"]).2.2.2.2.2
      (by decide)⟩

/-! ## Lemmas: the month-grouping dict -/

theorem addRating_mlookup (acc : List (String × List Int)) (k m : String) (v : Int) :
    mlookup m (addRating acc k v) =
      mlookup m acc ++ (if k = m then [v] else []) := by
  induction acc with
  | nil =>
    by_cases h : k = m
    · simp [addRating, mlookup, h]
    · simp [addRating, mlookup, h]
  | cons p rest ih =>
    obtain ⟨k2, vs⟩ := p
    by_cases hk2 : k2 = k
    · subst hk2
      by_cases hm : k2 = m
      · subst hm
        simp [addRating, mlookup]
      · simp [addRating, mlookup, hm]
    · by_cases hm : k2 = m
      · subst hm
        have : ¬ k = k2 := fun hh => hk2 hh.symm
        simp [addRating, mlookup, hk2, this]
      · simp [addRating, mlookup, hk2, hm, ih]

theorem foldl_monthStep_mlookup (rs : List Review) : ∀ acc m,
    mlookup m (List.foldl monthStep acc rs) = mlookup m acc ++ monthSel m rs := by
  induction rs with
  | nil => intro acc m; simp [monthSel, validPairs]
  | cons r rest ih =>
    intro acc m
    rw [List.foldl_cons, ih]
    cases hr : reviewMonthRating r with
    | none =>
      simp [monthStep, hr, monthSel, validPairs, List.filterMap_cons]
    | some p =>
      simp only [monthStep, hr, addRating_mlookup, monthSel, validPairs,
        List.filterMap_cons]
      by_cases hm : p.1 = m
      · simp [hm]
      · simp [hm]

theorem monthGroups_mlookup (rs : List Review) (m : String) :
    mlookup m (monthGroups rs) = monthSel m rs := by
  rw [monthGroups, foldl_monthStep_mlookup]
  simp [mlookup]

theorem addRating_keys (acc : List (String × List Int)) (k : String) (v : Int) :
    (addRating acc k v).map Prod.fst =
      if k ∈ acc.map Prod.fst then acc.map Prod.fst else acc.map Prod.fst ++ [k] := by
  induction acc with
  | nil => simp [addRating]
  | cons p rest ih =>
    obtain ⟨k2, vs⟩ := p
    by_cases hk2 : k2 = k
    · subst hk2
      simp [addRating]
    · have hkk2 : ¬ k = k2 := fun hh => hk2 hh.symm
      by_cases hmem : k ∈ rest.map Prod.fst
      · simp [addRating, hk2, ih, hmem, hkk2]
      · simp [addRating, hk2, ih, hmem, hkk2]

theorem foldl_monthStep_keys_mem (rs : List Review) : ∀ acc m,
    (m ∈ (List.foldl monthStep acc rs).map Prod.fst ↔
      m ∈ acc.map Prod.fst ∨ m ∈ (validPairs rs).map Prod.fst) := by
  induction rs with
  | nil => intro acc m; simp [validPairs]
  | cons r rest ih =>
    intro acc m
    rw [List.foldl_cons, ih]
    cases hr : reviewMonthRating r with
    | none => simp [monthStep, hr, validPairs, List.filterMap_cons]
    | some p =>
      simp only [monthStep, hr, validPairs, List.filterMap_cons, List.map_cons,
        List.mem_cons]
      rw [addRating_keys]
      by_cases hmem : p.1 ∈ acc.map Prod.fst
      · rw [if_pos hmem]
        constructor
        · rintro (h | h)
          · exact Or.inl h
          · exact Or.inr (Or.inr h)
        · rintro (h | h | h)
          · exact Or.inl h
          · exact Or.inl (h ▸ hmem)
          · exact Or.inr h
      · rw [if_neg hmem]
        simp only [List.mem_append, List.mem_singleton]
        constructor
        · rintro ((h | h) | h)
          · exact Or.inl h
          · exact Or.inr (Or.inl h)
          · exact Or.inr (Or.inr h)
        · rintro (h | h | h)
          · exact Or.inl (Or.inl h)
          · exact Or.inl (Or.inr h)
          · exact Or.inr h

theorem foldl_monthStep_keys_nodup (rs : List Review) : ∀ acc,
    (acc.map Prod.fst).Nodup → ((List.foldl monthStep acc rs).map Prod.fst).Nodup := by
  induction rs with
  | nil => intro acc h; exact h
  | cons r rest ih =>
    intro acc h
    rw [List.foldl_cons]
    cases hr : reviewMonthRating r with
    | none =>
      rw [monthStep, hr]
      exact ih acc h
    | some p =>
      rw [monthStep, hr]
      apply ih
      rw [addRating_keys]
      by_cases hmem : p.1 ∈ acc.map Prod.fst
      · rw [if_pos hmem]; exact h
      · rw [if_neg hmem]
        rw [List.nodup_append]
        exact ⟨h, List.nodup_singleton p.1, by simpa using hmem⟩

theorem monthGroups_keys_nodup (rs : List Review) :
    ((monthGroups rs).map Prod.fst).Nodup := by
  rw [monthGroups]
  exact foldl_monthStep_keys_nodup rs [] (by simp)

theorem monthGroups_keys_mem (rs : List Review) (m : String) :
    m ∈ (monthGroups rs).map Prod.fst ↔ m ∈ (validPairs rs).map Prod.fst := by
  rw [monthGroups, foldl_monthStep_keys_mem]
  simp

theorem monthSel_ne_nil_iff (rs : List Review) (m : String) :
    monthSel m rs ≠ [] ↔ m ∈ (validPairs rs).map Prod.fst := by
  rw [monthSel, Ne, List.filterMap_eq_nil_iff]
  constructor
  · intro h
    push_neg at h
    obtain ⟨p, hp, hne⟩ := h
    have : p.1 = m := by
      by_contra hc
      exact hne (by simp [hc])
    exact this ▸ List.mem_map_of_mem Prod.fst hp
  · intro h hall
    obtain ⟨p, hp, hm⟩ := List.mem_map.mp h
    have := hall p hp
    rw [hm] at this
    simp at this

/-- Strictness: keys that are pairwise non-descending and distinct are
pairwise strictly ascending. -/
theorem strLt_of_not_gt_of_ne {a b : String} (h1 : strLt b a = false) (h2 : a ≠ b) :
    strLt a b = true := by
  cases hab : strLt a b with
  | true => rfl
  | false =>
    exfalso
    rcases lexLt_connect hab with he | hba
    · refine h2 ?_
      cases a; cases b
      simp only at he
      rw [he]
    · have h1b : lexLt b.data a.data = false := h1
      rw [hba] at h1b
      exact absurd h1b (by simp)

/-! ## Claim C6 -/

/-- Claim C6: the sentiment-trend tool groups exactly the rows with a
parseable `YYYY-MM-DD` date and a parseable integer rating by calendar
month, outputs one `(month, mean)` row per month — rendered as a
`"YYYY-MM: avg"` line — whose value is the mean rating of that month, and
the month keys are strictly ascending in lexicographic order (in particular
the output lines are in non-decreasing month order, one line per month). -/
theorem sentiment_trend_spec (rs : List Review) :
    (sentiment_trend rs).Pairwise (fun a b => strLt a.1 b.1 = true) ∧
    (∀ m : String, (∃ q, (m, q) ∈ sentiment_trend rs) ↔
      m ∈ (validPairs rs).map Prod.fst) ∧
    (∀ m q, (m, q) ∈ sentiment_trend rs →
      monthSel m rs ≠ [] ∧
      q = ((monthSel m rs).sum : ℚ) / ((monthSel m rs).length : ℚ)) ∧
    sentiment_trend_tool rs = "Sentiment trend by month:\n" ++
      String.intercalate "\n"
        ((sentiment_trend rs).map (fun p => p.1 ++ ": " ++ fmtFixed 2 p.2)) := by
  have htrend : sentiment_trend rs =
      (sortStable beforeStrAsc ((monthGroups rs).map Prod.fst)).map
        (fun m => (m, ratMean (mlookup m (monthGroups rs)))) := rfl
  have hperm := sortStable_perm beforeStrAsc ((monthGroups rs).map Prod.fst)
  have hnd : (sortStable beforeStrAsc ((monthGroups rs).map Prod.fst)).Nodup :=
    hperm.nodup_iff.mpr (monthGroups_keys_nodup rs)
  have hmemkeys : ∀ m, m ∈ sortStable beforeStrAsc ((monthGroups rs).map Prod.fst) ↔
      m ∈ (validPairs rs).map Prod.fst := by
    intro m
    rw [hperm.mem_iff]
    exact monthGroups_keys_mem rs m
  have hpw : (sortStable beforeStrAsc ((monthGroups rs).map Prod.fst)).Pairwise
      (fun a b => strLt a b = true) := by
    have h1 := sortStable_pairwise beforeStrAsc beforeStrAsc_asymm
      beforeStrAsc_negtrans ((monthGroups rs).map Prod.fst)
    have h2 := h1.and hnd
    refine h2.imp ?_
    intro a b hab
    exact strLt_of_not_gt_of_ne hab.1 hab.2
  refine ⟨?_, ?_, ?_, rfl⟩
  · rw [htrend, List.pairwise_map]
    exact hpw
  · intro m
    constructor
    · rintro ⟨q, hq⟩
      rw [htrend] at hq
      obtain ⟨m2, hm2, heq⟩ := List.mem_map.mp hq
      cases heq
      exact (hmemkeys m).mp hm2
    · intro hm
      refine ⟨ratMean (mlookup m (monthGroups rs)), ?_⟩
      rw [htrend]
      exact List.mem_map_of_mem _ ((hmemkeys m).mpr hm)
  · intro m q hq
    rw [htrend] at hq
    obtain ⟨m2, hm2, heq⟩ := List.mem_map.mp hq
    cases heq
    have hmem : m ∈ (validPairs rs).map Prod.fst := (hmemkeys m).mp hm2
    have hne : monthSel m rs ≠ [] := (monthSel_ne_nil_iff rs m).mpr hmem
    refine ⟨hne, ?_⟩
    rw [monthGroups_mlookup, ratMean,
      if_neg (fun hlen => hne (List.length_eq_zero.mp hlen)), Rat.mkRat_eq_div]

/-- Witness for C6: the single valid review of January 2024 yields the month
row `("2024-01", 4)` whose value is the mean of the selected ratings. -/
theorem sentiment_trend_spec_witness :
    monthSel "2024-01" [Review.mk "A" "2024-01-10" "4" "x"] ≠ [] ∧
    mkRat 4 1 = ((monthSel "2024-01" [Review.mk "A" "2024-01-10" "4" "x"]).sum : ℚ) /
      ((monthSel "2024-01" [Review.mk "A" "2024-01-10" "4" "x"]).length : ℚ) :=
  (sentiment_trend_spec [Review.mk "A" "2024-01-10" "4" "x"]).2.2.1 "2024-01"
    (mkRat 4 1) (by decide)

/-! ## Claim C1 -/

/-- Claim C1: the `safe_tool` wrapper rewrites every raised exception into an
`"[Tool Error] "`-prefixed returned string, and every tool registered in the
Review and Mail registries satisfies the wrapped behaviour: on any input it
returns a string (never raises past the registry boundary), and whenever its
underlying function raises, the registered tool returns the prefixed message
instead. -/
theorem safe_tool_spec :
    (∀ (f : String → Except String String) (x m : String),
      f x = Except.error m → safe_tool f x = Except.ok ("[Tool Error] " ++ m)) ∧
    (∀ (rs : List Review) (parse : String → Except String (List (String × String)))
      (transport : MailMsg → Except String Unit) (user : String),
      ∀ t ∈ review_tools rs ++ mail_tools parse transport user, ∀ x : String,
        (∃ s, t.registered x = Except.ok s) ∧
        (∀ m, t.underlying x = Except.error m →
          t.registered x = Except.ok ("[Tool Error] " ++ m))) := by
  constructor
  · intro f x m h
    rw [safe_tool, h]
  · intro rs parse transport user t ht x
    simp only [review_tools, mail_tools, List.cons_append, List.nil_append,
      List.mem_cons, List.not_mem_nil, or_false] at ht
    rcases ht with rfl | rfl | rfl | rfl | rfl | rfl | rfl | rfl | rfl | rfl | rfl <;>
      exact ⟨⟨_, rfl⟩, fun m hm => by simp [liftTool] at hm⟩

/-- Witness for C1: a tool raising `"boom"` is rewritten to the prefixed
string by `safe_tool`. -/
theorem safe_tool_spec_witness :
    safe_tool (fun _ => Except.error "boom") "x" = Except.ok ("[Tool Error] " ++ "boom") :=
  safe_tool_spec.1 (fun _ => Except.error "boom") "x" "boom" rfl

/-! ## Claim C2 -/

/-- Claim C2: for every input to the mail tool, if the input decodes to a
JSON object with a `"to"` key and no `"subject"`/`"body"` keys and the
transport succeeds, the tool transmits exactly one message with subject
`"No Subject"` and empty body and returns the success string naming the
recipient; and on every input the returned string is either an
`"[SendMail Error] "`-prefixed string or a success string — the tool never
raises past its boundary. -/
theorem send_mail_tool_spec (parse : String → Except String (List (String × String)))
    (transport : MailMsg → Except String Unit) (user input : String) :
    (∀ data addr, parse input = Except.ok data → alookup "to" data = some addr →
      alookup "subject" data = none → alookup "body" data = none →
      transport (MailMsg.mk user addr "No Subject" "") = Except.ok () →
      send_mail_tool parse transport user input =
        ("Email sent successfully to " ++ addr, [MailMsg.mk user addr "No Subject" ""])) ∧
    ((∃ e, (send_mail_tool parse transport user input).1 = "[SendMail Error] " ++ e) ∨
      (∃ a, (send_mail_tool parse transport user input).1 =
        "Email sent successfully to " ++ a)) := by
  constructor
  · intro data addr hp hto hsub hbody htr
    simp only [send_mail_tool, hp, hto, hsub, hbody, Option.getD_none, htr]
  · cases hp : parse input with
    | error e =>
      exact Or.inl ⟨e, by simp only [send_mail_tool, hp]⟩
    | ok data =>
      cases hto : alookup "to" data with
      | none =>
        refine Or.inl ⟨squote ++ "to" ++ squote, ?_⟩
        simp only [send_mail_tool, hp, hto]
        simp [String.append_assoc]
      | some addr =>
        cases htr : transport (MailMsg.mk user addr
            ((alookup "subject" data).getD "No Subject")
            ((alookup "body" data).getD "")) with
        | error e =>
          refine Or.inl ⟨e, ?_⟩
          simp only [send_mail_tool, hp, hto, htr]
        | ok u =>
          refine Or.inr ⟨addr, ?_⟩
          simp only [send_mail_tool, hp, hto, htr]

/-- Witness for C2: with a parse oracle yielding `{"to": "x@y.com"}` and a
succeeding transport, the defaulted message is sent and the success string
names the recipient. -/
theorem send_mail_tool_spec_witness :
    send_mail_tool (fun _ => Except.ok [("to", "x@y.com")]) (fun _ => Except.ok ())
        "me" "in" =
      ("Email sent successfully to " ++ "x@y.com",
       [MailMsg.mk "me" "x@y.com" "No Subject" ""]) :=
  (send_mail_tool_spec (fun _ => Except.ok [("to", "x@y.com")]) (fun _ => Except.ok ())
    "me" "in").1 [("to", "x@y.com")] "x@y.com" rfl (by decide) (by decide) (by decide) rfl

/-! ## Claim C9 -/

/-- Claim C9: for every classifier response that, after stripping and
capitalisation, is neither `"Review"` nor `"Mail"`, the `/smart` route maps
the intent to `"Unknown"` and returns the fixed apology string, and its
result does not depend on either agent (neither is invoked). -/
theorem smart_router_unknown (f g f2 g2 : String → String) (response prompt : String)
    (h1 : pyCapitalize (pyStripStr response) ≠ "Review")
    (h2 : pyCapitalize (pyStripStr response) ≠ "Mail") :
    smart_router f g response prompt = ("Unknown", apologyText) ∧
    smart_router f g response prompt = smart_router f2 g2 response prompt := by
  have hc : classify_intent response = "Unknown" := by
    rw [classify_intent, if_neg]
    rintro (h | h)
    · exact h1 h
    · exact h2 h
  have key : ∀ a b : String → String,
      smart_router a b response prompt = ("Unknown", apologyText) := by
    intro a b
    rw [smart_router, hc, if_neg (by decide), if_neg (by decide)]
  exact ⟨key f g, (key f g).trans (key f2 g2).symm⟩

/-- Witness for C9 at the classifier response `"banana"`. -/
theorem smart_router_unknown_witness :
    smart_router (fun _ => "R") (fun _ => "M") "banana" "p" = ("Unknown", apologyText) :=
  (smart_router_unknown (fun _ => "R") (fun _ => "M") (fun _ => "R2") (fun _ => "M2")
    "banana" "p" (by decide) (by decide)).1

/-! ## Claim C10 -/

/-- Claim C10: every Review-registry tool invocation is read-only on the
review store: the state-passing translation of each tool returns the store
unchanged, in contents and order. -/
theorem review_tools_readonly (c : ReviewToolCall) (rs : List Review) :
    (runReviewTool c rs).2 = rs := by
  cases c <;> rfl

end SimpleAgent
